import Mathlib

/-!
Verification of the quiz-extraction logic of `docx_proc.py`.

The source program parses one text blob: it splits the blob on the literal
marker "Answer key" (a two-part unpacking guarded by a try/except), scans the
trailing section with the regex `(\d+)\.([a-d])` building a number-to-letter
dictionary (later entries overwrite earlier ones), scans the whole blob with
the question regex
`Type: Multiple choice question[\s\S]*?Question (\d+) ([\s\S]*?)(?=Type: Multiple choice question|Answer key|$)`
under `re.finditer`, and segments each block body into question text plus a
four-line option window using the pattern
`^\s*([a-dA-D]{1}[\.\)]|\d{1}[\.\)]|\w{3,4})$` applied to the last four
trimmed lines, with a last-4-lines fallback.

Strings are embedded as `List Char`.  Regular-expression scanning is embedded
operationally: the particular patterns of the source use only lazy stars with
literal alternatives, so `re.finditer` semantics reduce to a deterministic
left-to-right scan that this file implements directly.  Character classes are
modelled over their ASCII ranges.  The one genuinely fallible operation of the
source (the two-part tuple unpacking of `str.split`, which raises `ValueError`
when the part count differs from two) and the list indexing of the option loop
are modelled in `Except`, mirroring the try/except of the source.
-/

deriving instance DecidableEq for Except

namespace DocxProc

/-- Strings of the source program, embedded as lists of characters. -/
abbrev Str := List Char

/-- Whitespace test used for `str.strip`, `\s` and blank-line filtering
(ASCII whitespace: space, tab, newline, carriage return, vertical tab,
form feed). -/
def isSpace (c : Char) : Bool :=
  c = ' ' || c = '\t' || c = '\n' || c = '\r' || c = '\x0b' || c = '\x0c'

/-- Embedding of Python `str.strip()`: drop whitespace from both ends. -/
def strip (s : Str) : Str :=
  ((s.dropWhile isSpace).reverse.dropWhile isSpace).reverse

/-- The literal question-block start marker of `QUESTION_REGEX`. -/
def startMarker : Str := "Type: Multiple choice question".toList

/-- The literal answer-key section marker. -/
def answerMarker : Str := "Answer key".toList

/-- The literal token (with its two surrounding spaces in the regex) that
precedes the question number in `QUESTION_REGEX`. -/
def questionTok : Str := "Question ".toList

/-- Value of a decimal digit string, as computed by Python `int`. -/
def digitsVal (ds : Str) : Nat :=
  ds.foldl (fun a c => 10 * a + (c.toNat - 48)) 0

/-- Maximal leading run of decimal digits and the remainder: the behaviour of
a greedy `\d+` anchored at the current position. -/
def takeDigits : Str → Str × Str
  | [] => ([], [])
  | c :: cs =>
    if c.isDigit then
      let p := takeDigits cs
      (c :: p.1, p.2)
    else ([], c :: cs)

/-- First index at which `pat` occurs in `s`, if any (leftmost occurrence, as
found by `str.split` and `str.find`). -/
def findPat (pat : Str) : Str → Option Nat
  | [] => if pat.isPrefixOf ([] : Str) then some 0 else none
  | c :: cs =>
    if pat.isPrefixOf (c :: cs) then some 0
    else (findPat pat cs).map (· + 1)

/-- Fuelled worker for `splitOnMarker`. -/
def splitOnMarkerF : Nat → Str → List Str
  | 0, s => [s]
  | fuel + 1, s =>
    match findPat answerMarker s with
    | none => [s]
    | some i => s.take i :: splitOnMarkerF fuel (s.drop (i + answerMarker.length))

/-- Embedding of `doc_content.split("Answer key")`: Python `str.split` on a
literal separator, splitting at every non-overlapping occurrence. -/
def splitOnMarker (s : Str) : List Str := splitOnMarkerF s.length s

/-- Fuelled worker for `occCount`. -/
def occCountF : Nat → Str → Nat
  | 0, _ => 0
  | fuel + 1, s =>
    match findPat answerMarker s with
    | none => 0
    | some i => occCountF fuel (s.drop (i + answerMarker.length)) + 1

/-- Number of non-overlapping occurrences of the "Answer key" marker in `s`. -/
def occCount (s : Str) : Nat := occCountF s.length s

/-- Embedding of the two-part unpacking
`_, answer_key_block = doc_content.split("Answer key")`: Python raises
`ValueError` (modelled as `Except.error`) unless the split has exactly two
parts. -/
def answer_key_block (s : Str) : Except Unit Str :=
  match splitOnMarker s with
  | [_, b] => Except.ok b
  | _ => Except.error ()

/-- Anchored attempt of the answer regex `(\d+)\.([a-d])` at the current
position: a maximal nonempty digit run, then a dot, then a letter a-d.
Returns the number, the letter and the remainder after the match. -/
def matchAnswerAt (s : Str) : Option (Nat × Char × Str) :=
  match takeDigits s with
  | ([], _) => none
  | (ds, c :: l :: rest) =>
    if c = '.' && ('a' ≤ l && l ≤ 'd') then some (digitsVal ds, l, rest)
    else none
  | _ => none

/-- Fuelled worker for `scanAnswers`. -/
def scanAnswersF : Nat → Str → List (Nat × Char)
  | 0, _ => []
  | _ + 1, [] => []
  | fuel + 1, c :: cs =>
    match matchAnswerAt (c :: cs) with
    | some (n, l, rest) => (n, l) :: scanAnswersF fuel rest
    | none => scanAnswersF fuel cs

/-- Embedding of `re.finditer(ANSWER_REGEX, answer_key_block, re.DOTALL)`:
left-to-right non-overlapping matches of `(\d+)\.([a-d])`. -/
def scanAnswers (s : Str) : List (Nat × Char) := scanAnswersF s.length s

/-- Embedding of the dictionary loop `answer_map[q_num] = answer_letter`:
each entry overwrites any previous binding of the same number; the result is
the lookup function of the final dictionary (`answer_map.get`). -/
def buildMap (entries : List (Nat × Char)) : Nat → Option Char :=
  entries.foldl (fun m e => fun k => if k = e.1 then some e.2 else m k)
    (fun _ => none)

/-- Embedding of the whole answer-extraction step of the source: split on the
marker, fall back to the empty trailing section when the two-part unpacking
fails (the except branch), then scan the trailing section. -/
def extract_answers (s : Str) : List (Nat × Char) :=
  let b :=
    match answer_key_block s with
    | Except.ok b => b
    | Except.error _ => []
  scanAnswers b

/-- Anchored attempt of `Question (\d+) ` at the current position: the literal
token "Question ", a greedy nonempty digit run, then a literal space.
Returns the question number and the remainder after the space. -/
def matchQuestionNum (s : Str) : Option (Nat × Str) :=
  if questionTok.isPrefixOf s then
    match takeDigits (s.drop questionTok.length) with
    | ([], _) => none
    | (ds, c :: r) => if c = ' ' then some (digitsVal ds, r) else none
    | _ => none
  else none

/-- Resolution of the lazy gap `[\s\S]*?Question (\d+) `: the first position
at or after the current one where `Question (\d+) ` matches. -/
def scanQuestionTok : Str → Option (Nat × Str)
  | [] => none
  | c :: cs =>
    match matchQuestionNum (c :: cs) with
    | some r => some r
    | none => scanQuestionTok cs

/-- The lookahead alternatives `(?=Type: Multiple choice question|Answer key|$)`
of the question regex, tested at the position whose remaining input is `s`.
Under Python semantics (no `re.MULTILINE`), `$` matches at the end of the
input and immediately before a newline that ends the input. -/
def atBoundary (s : Str) : Bool :=
  startMarker.isPrefixOf s || answerMarker.isPrefixOf s || s.isEmpty
    || decide (s = ['\n'])

/-- Resolution of the lazy body `([\s\S]*?)` against the boundary lookahead:
the shortest body such that the remainder starts at a boundary.  Returns the
body and the remainder. -/
def takeBody : Str → Str × Str
  | [] => ([], [])
  | c :: cs =>
    if atBoundary (c :: cs) then ([], c :: cs)
    else
      let p := takeBody cs
      (c :: p.1, p.2)

/-- Anchored attempt of the whole question regex at the current position:
the literal start marker, then the first subsequent `Question (\d+) `, then
the shortest body ending at a boundary.  Returns the question number, the raw
body and the remainder after the match. -/
def tryMatchHere (s : Str) : Option (Nat × Str × Str) :=
  if startMarker.isPrefixOf s then
    match scanQuestionTok (s.drop startMarker.length) with
    | some (n, afterNum) =>
      let p := takeBody afterNum
      some (n, p.1, p.2)
    | none => none
  else none

/-- One `re.finditer` step: the leftmost position at or after the current one
where the question regex matches. -/
def findMatch : Str → Option (Nat × Str × Str)
  | [] => none
  | c :: cs =>
    match tryMatchHere (c :: cs) with
    | some m => some m
    | none => findMatch cs

/-- Fuelled worker for `scanAll`. -/
def scanAllF : Nat → Str → List (Nat × Str)
  | 0, _ => []
  | fuel + 1, s =>
    match findMatch s with
    | none => []
    | some (n, b, r) => (n, b) :: scanAllF fuel r

/-- Embedding of `re.finditer(QUESTION_REGEX, doc_content, re.DOTALL)`: the
list of (question number, raw body) pairs of the non-overlapping
left-to-right matches. -/
def scanAll (s : Str) : List (Nat × Str) := scanAllF s.length s

/-- ASCII test for the letter range `[a-dA-D]` of the option pattern. -/
def isLetterAD (c : Char) : Bool :=
  ('a' ≤ c && c ≤ 'd') || ('A' ≤ c && c ≤ 'D')

/-- ASCII test for `\w`: letters, digits and underscore. -/
def isWordChar (c : Char) : Bool := c.isAlphanum || c = '_'

/-- The alternatives of `OPTION_PREFIX_PATTERN` matched against the part of
the line between the leading whitespace and the position where `$` matches:
a single letter a-d (either case) or digit followed by a dot or closing
parenthesis, or a bare run of exactly 3 or 4 word characters. -/
def optCore (t : Str) : Bool :=
  match t with
  | [c, d] => (isLetterAD c || c.isDigit) && (d = '.' || d = ')')
  | _ => (t.length = 3 || t.length = 4) && t.all isWordChar

/-- Removal of a trailing newline, modelling the position just before a final
newline at which `$` may match. -/
def dropFinalNl (t : Str) : Str :=
  match t.getLast? with
  | some c => if c = '\n' then t.dropLast else t
  | none => t

/-- Embedding of `re.match(OPTION_PREFIX_PATTERN, line)` as a Boolean:
`^\s*([a-dA-D]{1}[\.\)]|\d{1}[\.\)]|\w{3,4})$`. -/
def isOptionLine (l : Str) : Bool :=
  optCore (dropFinalNl (l.dropWhile isSpace))

/-- Embedding of the option-detection loop
`for i in range(len(lines) - 4, len(lines))`: try the given indices in order,
return the first whose line matches the option pattern.  The indexing
`lines[i]` is fallible (Python `IndexError`), modelled in `Except`. -/
def optionLoop (lines : List Str) : List Nat → Except Unit (Option Nat)
  | [] => Except.ok none
  | i :: is =>
    match lines[i]? with
    | none => Except.error ()
    | some l =>
      if isOptionLine l then Except.ok (some i) else optionLoop lines is

/-- The guarded option-detection loop of the source: run only when at least
4 lines remain, over exactly the indices `len-4, len-3, len-2, len-1`. -/
def findOptionIndex (lines : List Str) : Except Unit (Option Nat) :=
  if 4 ≤ lines.length then
    optionLoop lines
      [lines.length - 4, lines.length - 3, lines.length - 2, lines.length - 1]
  else Except.ok none

/-- The fallback `if option_start_index == -1 and len(lines) >= 4` of the
source: a missing match becomes `len - 4` when at least 4 lines exist. -/
def fallbackIndex (found : Option Nat) (n : Nat) : Option Nat :=
  match found with
  | some i => some i
  | none => if 4 ≤ n then some (n - 4) else none

/-- Embedding of Python `'\n'.join(lines)`. -/
def joinLines : List Str → Str
  | [] => []
  | [l] => l
  | l :: ls => l ++ '\n' :: joinLines ls

/-- Embedding of the question-text / options separation of the source:
`question_text = '\n'.join(lines[:i]).strip()` and
`options = lines[i:i + 4]` when a split index exists, otherwise the whole
body is the question text and the options are empty. -/
def segmentBody (lines : List Str) : Except Unit (Str × List Str) :=
  match findOptionIndex lines with
  | Except.error e => Except.error e
  | Except.ok found =>
    match fallbackIndex found lines.length with
    | some i =>
      Except.ok (strip (joinLines (lines.take i)), (lines.drop i).take 4)
    | none => Except.ok (strip (joinLines lines), [])

/-- First line of `s` and, when a newline was found, the remainder after it. -/
def breakLine : Str → Str × Option Str
  | [] => ([], none)
  | c :: cs =>
    if c = '\n' then ([], some cs)
    else
      let p := breakLine cs
      (c :: p.1, p.2)

/-- Fuelled worker for `splitLines`. -/
def splitLinesF : Nat → Str → List Str
  | 0, _ => []
  | fuel + 1, s =>
    match s with
    | [] => []
    | _ =>
      match breakLine s with
      | (l, none) => [l]
      | (l, some rest) => l :: splitLinesF fuel rest

/-- Embedding of `body.splitlines()` over newline separators: the empty
string yields no lines and a trailing newline yields no final empty line. -/
def splitLines (s : Str) : List Str := splitLinesF s.length s

/-- Embedding of
`[line.strip() for line in body.splitlines() if line.strip()]`. -/
def cleanLines (body : Str) : List Str :=
  ((splitLines body).map strip).filter (fun l => !l.isEmpty)

/-- Output record of the parser, with the fields of the structured
dictionary built by the source. -/
structure QuizItem where
  q_no : Nat
  question : Str
  options : List Str
  answer_letter : Str
deriving DecidableEq, Repr

/-- The sentinel stored when a question number is missing from the answer
map: the string "N/A". -/
def notFound : Str := "N/A".toList

/-- Construction of one structured item from a raw match: strip the body,
split it into non-empty trimmed lines, segment, and resolve the answer
letter through the map (defaulting to the sentinel). -/
def mkItem (amap : Nat → Option Char) (n : Nat) (rawBody : Str) :
    Except Unit QuizItem :=
  match segmentBody (cleanLines (strip rawBody)) with
  | Except.ok (qt, opts) =>
    Except.ok
      { q_no := n, question := qt, options := opts,
        answer_letter :=
          match amap n with
          | some c => [c]
          | none => notFound }
  | Except.error e => Except.error e

/-- Effectful map over a list, mirroring the item-building loop of the
source: the first failure aborts the loop. -/
def mapExcept (f : α → Except ε β) : List α → Except ε (List β)
  | [] => Except.ok []
  | a :: as =>
    match f a with
    | Except.error e => Except.error e
    | Except.ok b =>
      match mapExcept f as with
      | Except.error e => Except.error e
      | Except.ok bs => Except.ok (b :: bs)

/-- Embedding of `parse_quiz_content`: the empty-blob guard, the answer
extraction, and the question loop building one structured item per match. -/
def parse_quiz_content (doc_content : Str) : Except Unit (List QuizItem) :=
  if doc_content = [] then Except.ok []
  else
    mapExcept
      (fun m => mkItem (buildMap (extract_answers doc_content)) m.1 m.2)
      (scanAll doc_content)

/-- The structured list produced by a successful parse (the parse is proved
to always succeed; on the unreachable error branch this returns the empty
list). -/
def quizItems (s : Str) : List QuizItem :=
  match parse_quiz_content s with
  | Except.ok l => l
  | Except.error _ => []

/-- Claim-side definition, following the words of the claim about multiple
"Answer key" markers: split on the first occurrence only and parse the
answer mapping from everything after the first marker (empty when the
marker is absent).  To be compared with `extract_answers`. -/
def extract_answers_firstSplit (s : Str) : List (Nat × Char) :=
  match findPat answerMarker s with
  | some i => scanAnswers (s.drop (i + answerMarker.length))
  | none => scanAnswers []

/-- Claim-side test, following the words of the question-block claim: does
`s` contain, somewhere, the token "Question " followed immediately by a
digit? -/
def hasQuestionInt : Str → Bool
  | [] => false
  | c :: cs =>
    (questionTok.isPrefixOf (c :: cs) &&
      (match (c :: cs).drop questionTok.length with
       | d :: _ => d.isDigit
       | [] => false)) || hasQuestionInt cs

/-- Claim-side count, following the words of the question-block claim: the
number of positions of `s` at which the literal start marker occurs and is
followed (with arbitrary intervening text) by the token "Question" and an
integer.  The claim asserts one `QuizItem` per such occurrence. -/
def claimOccurrences (s : Str) : Nat :=
  ((List.range s.length).filter (fun p =>
    startMarker.isPrefixOf (s.drop p) &&
      hasQuestionInt (s.drop (p + startMarker.length)))).length

/-- Claim-side lookup, following the words of the overwrite claim: the
letter of the last (rightmost) entry for a given number. -/
def lookLast : List (Nat × Char) → Nat → Option Char
  | [], _ => none
  | e :: tl, n =>
    match lookLast tl n with
    | some x => some x
    | none => if n = e.1 then some e.2 else none

/-- Boolean test that a line is non-empty and carries no leading or trailing
whitespace, i.e. is a non-empty trimmed line in the sense of the spec. -/
def trimmedLine (l : Str) : Bool :=
  !l.isEmpty &&
    (match l.head? with
     | some c => !isSpace c
     | none => true) &&
    (match l.getLast? with
     | some c => !isSpace c
     | none => true)

/-- Blob containing the "Answer key" marker twice, with one parseable entry
between the two markers. -/
def exMultiKey : Str := "Answer key 1.a Answer key".toList

/-- Blob in which the start marker occurs twice but the token "Question"
with an integer only follows the second occurrence. -/
def exNested : Str :=
  "Type: Multiple choice question Type: Multiple choice question Question 1 x".toList

/-- Minimal blob with one well-formed question block and no answer key. -/
def exSmall : Str := "Type: Multiple choice question Question 7 Hi".toList

/-- Blob with one question block and no "Answer key" marker anywhere. -/
def exNoKey : Str := "Type: Multiple choice question Question 2 Why not".toList

/-- Answer-key text with two entries for the same question number. -/
def exKeyDup : Str := "1.a ... 1.b".toList

/-- Malformed answer-key entry: the letter is outside a-d. -/
def exMalformed : Str := "12.e".toList

/-- Answer-key text with a single well-formed entry. -/
def exOneKey : Str := "Answer: 12.b".toList

/-- Five trimmed lines whose last four all match the option pattern. -/
def exLines4 : List Str :=
  ["Which is best?".toList, "a)".toList, "b)".toList, "c)".toList, "d)".toList]

/-- Five trimmed lines none of whose last four matches the option pattern. -/
def exLines5 : List Str :=
  ["Question stem".toList, "first option line".toList,
   "second option line".toList, "third option line".toList,
   "fourth option line".toList]

/-- Six trimmed lines whose first line matches the option pattern while no
line of the last-4 window does. -/
def exLines6 : List Str :=
  ["a)".toList, "hello there".toList, "world now".toList, "foo bar".toList,
   "baz qux".toList, "quux corge".toList]

/-- The trimmed lines of the block body of the end-to-end example of the
specification. -/
def exLinesSky : List Str :=
  ["What color is the sky?".toList, "A) Blue".toList, "B) Red".toList,
   "C) Green".toList, "D) Yellow".toList]

/-- Occurrence witnessing an answer entry: the entry's number is the value
of a nonempty digit substring immediately followed by a dot and by the
entry's letter, which lies in the range a-d. -/
def AnswerOcc (s : Str) (e : Nat × Char) : Prop :=
  ∃ u ds v, s = u ++ ds ++ '.' :: e.2 :: v ∧ ds ≠ [] ∧
    ds.all Char.isDigit = true ∧ digitsVal ds = e.1 ∧ 'a' ≤ e.2 ∧ e.2 ≤ 'd'

/-- The structured item that the parser produces for `exSmall`. -/
def exItem7 : QuizItem :=
  { q_no := 7, question := "Hi".toList, options := [],
    answer_letter := "N/A".toList }

/-- Decomposition witnessing a question block: the input splits as arbitrary
text, the literal start marker, arbitrary intervening text, the literal
token "Question ", a nonempty digit run whose value is the block's number, a
space, the block's raw body, and a remainder that starts at a boundary
(next start marker, "Answer key", or end of input), while no strict suffix
of the body starts at a boundary — the body ends at the first boundary. -/
def QuestionOcc (s : Str) (m : Nat × Str) : Prop :=
  ∃ pre mid ds post,
    s = pre ++ startMarker ++ mid ++ questionTok ++ ds ++ ' ' :: (m.2 ++ post) ∧
    ds ≠ [] ∧ ds.all Char.isDigit = true ∧ digitsVal ds = m.1 ∧
    atBoundary post = true ∧
    ∀ b₁ b₂, m.2 = b₁ ++ b₂ → b₂ ≠ [] → atBoundary (b₂ ++ post) = false

/-!
Helper lemmas.
-/

theorem isPrefixOf_true_iff {l₁ l₂ : Str} :
    l₁.isPrefixOf l₂ = true ↔ l₁ <+: l₂ :=
  List.isPrefixOf_iff_prefix

theorem splitOnMarkerF_length :
    ∀ (fuel : Nat) (s : Str),
      (splitOnMarkerF fuel s).length = occCountF fuel s + 1 := by
  intro fuel
  induction fuel with
  | zero => intro s; simp [splitOnMarkerF, occCountF]
  | succ f ih =>
    intro s
    unfold splitOnMarkerF occCountF
    cases findPat answerMarker s with
    | none => simp
    | some i => simp [ih]

theorem answer_key_block_eq_error {s : Str}
    (h : (splitOnMarker s).length ≠ 2) :
    answer_key_block s = Except.error () := by
  unfold answer_key_block
  rcases hl : splitOnMarker s with _ | ⟨a, _ | ⟨b, _ | ⟨c, t⟩⟩⟩ <;>
    simp_all

theorem extract_answers_of_error {s : Str}
    (h : answer_key_block s = Except.error ()) :
    extract_answers s = [] := by
  unfold extract_answers
  rw [h]
  rfl

theorem takeDigits_decomp :
    ∀ s : Str,
      s = (takeDigits s).1 ++ (takeDigits s).2 ∧
        (takeDigits s).1.all Char.isDigit = true := by
  intro s
  induction s with
  | nil => simp [takeDigits]
  | cons c cs ih =>
    by_cases h : c.isDigit
    · simpa [takeDigits, h] using ih
    · simp [takeDigits, h]

theorem matchAnswerAt_decomp {s : Str} {n : Nat} {l : Char} {rest : Str}
    (h : matchAnswerAt s = some (n, l, rest)) :
    ∃ ds, s = ds ++ '.' :: l :: rest ∧ ds ≠ [] ∧
      ds.all Char.isDigit = true ∧ digitsVal ds = n ∧ 'a' ≤ l ∧ l ≤ 'd' := by
  have hd := takeDigits_decomp s
  rcases htd : takeDigits s with ⟨ds, r⟩
  rw [htd] at hd
  unfold matchAnswerAt at h
  rw [htd] at h
  rcases ds with _ | ⟨d0, ds'⟩
  · simp at h
  rcases r with _ | ⟨c1, r'⟩
  · simp at h
  rcases r' with _ | ⟨c2, r''⟩
  · simp at h
  simp only [] at h
  split at h
  · next hcond =>
    simp only [Bool.and_eq_true, decide_eq_true_eq] at hcond
    obtain ⟨hdot, hge, hle⟩ := hcond
    simp only [Option.some.injEq, Prod.mk.injEq] at h
    obtain ⟨hn, hl2, hr2⟩ := h
    subst hdot hn hl2 hr2
    exact ⟨d0 :: ds', hd.1, by simp, hd.2, rfl, hge, hle⟩
  · simp at h

theorem scanAnswersF_sound :
    ∀ (fuel : Nat) (s : Str) (e : Nat × Char),
      e ∈ scanAnswersF fuel s → AnswerOcc s e := by
  intro fuel
  induction fuel with
  | zero => intro s e he; simp [scanAnswersF] at he
  | succ f ih =>
    intro s e he
    match s with
    | [] => simp [scanAnswersF] at he
    | c :: cs =>
      rw [scanAnswersF] at he
      cases hm : matchAnswerAt (c :: cs) with
      | none =>
        rw [hm] at he
        obtain ⟨u, ds, v, hs, hne, hdig, hval, hge, hle⟩ := ih cs e he
        exact ⟨c :: u, ds, v, by simp [hs], hne, hdig, hval, hge, hle⟩
      | some t =>
        obtain ⟨n', l', rest'⟩ := t
        rw [hm] at he
        rcases List.mem_cons.mp he with rfl | htl
        · obtain ⟨ds, hs, hne, hdig, hval, hge, hle⟩ := matchAnswerAt_decomp hm
          exact ⟨[], ds, rest', by simpa using hs, hne, hdig, hval, hge, hle⟩
        · obtain ⟨ds0, hs0, hne0, _, _, _, _⟩ := matchAnswerAt_decomp hm
          obtain ⟨u, ds, v, hs, hne, hdig, hval, hge, hle⟩ := ih rest' e htl
          refine ⟨ds0 ++ '.' :: l' :: u, ds, v, ?_, hne, hdig, hval, hge, hle⟩
          rw [hs0, hs]
          simp

theorem scanAnswers_sound {s : Str} {e : Nat × Char}
    (he : e ∈ scanAnswers s) : AnswerOcc s e :=
  scanAnswersF_sound s.length s e he

theorem buildMap_eq_lookLast :
    ∀ (es : List (Nat × Char)) (m : Nat → Option Char) (n : Nat),
      (es.foldl (fun m e => fun k => if k = e.1 then some e.2 else m k) m) n =
        (match lookLast es n with
         | some x => some x
         | none => m n) := by
  intro es
  induction es with
  | nil => intro m n; simp [lookLast]
  | cons e tl ih =>
    intro m n
    rw [List.foldl_cons, ih]
    have hc : lookLast (e :: tl) n =
        (match lookLast tl n with
         | some x => some x
         | none => if n = e.1 then some e.2 else none) := rfl
    rw [hc]
    cases lookLast tl n with
    | some x => rfl
    | none => by_cases hn : n = e.1 <;> simp [hn]

theorem optionLoop_ok (lines : List Str) :
    ∀ idxs : List Nat, (∀ i ∈ idxs, i < lines.length) →
      ∃ o, optionLoop lines idxs = Except.ok o := by
  intro idxs
  induction idxs with
  | nil => intro _; exact ⟨none, rfl⟩
  | cons i is ih =>
    intro h
    have hi : i < lines.length := h i (List.mem_cons_self i is)
    have hsome : lines[i]? = some lines[i] := List.getElem?_eq_getElem hi
    unfold optionLoop
    rw [hsome]
    by_cases hopt : isOptionLine lines[i]
    · exact ⟨some i, by simp [hopt]⟩
    · obtain ⟨o, ho⟩ := ih (fun j hj => h j (List.mem_cons_of_mem i hj))
      exact ⟨o, by simp [hopt, ho]⟩

theorem findOptionIndex_ok (lines : List Str) :
    ∃ o, findOptionIndex lines = Except.ok o := by
  unfold findOptionIndex
  by_cases h4 : 4 ≤ lines.length
  · rw [if_pos h4]
    apply optionLoop_ok
    intro i hi
    simp only [List.mem_cons, List.not_mem_nil, or_false] at hi
    rcases hi with rfl | rfl | rfl | rfl <;> omega
  · rw [if_neg h4]
    exact ⟨none, rfl⟩

theorem segmentBody_ok (lines : List Str) :
    ∃ r, segmentBody lines = Except.ok r := by
  obtain ⟨o, ho⟩ := findOptionIndex_ok lines
  unfold segmentBody
  rw [ho]
  cases hf : fallbackIndex o lines.length with
  | some i =>
    refine ⟨(strip (joinLines (lines.take i)), (lines.drop i).take 4), ?_⟩
    simp [hf]
  | none =>
    refine ⟨(strip (joinLines lines), []), ?_⟩
    simp [hf]

theorem mkItem_spec (amap : Nat → Option Char) (n : Nat) (rawBody : Str) :
    ∃ it, mkItem amap n rawBody = Except.ok it ∧ it.q_no = n ∧
      it.answer_letter =
        (match amap n with
         | some c => [c]
         | none => notFound) := by
  obtain ⟨⟨qt, opts⟩, hseg⟩ := segmentBody_ok (cleanLines (strip rawBody))
  refine ⟨{ q_no := n, question := qt, options := opts,
            answer_letter :=
              match amap n with
              | some c => [c]
              | none => notFound }, ?_, rfl, rfl⟩
  unfold mkItem
  rw [hseg]

theorem mapExcept_ok {α β ε : Type} (f : α → Except ε β) :
    ∀ as : List α, (∀ a ∈ as, ∃ b, f a = Except.ok b) →
      ∃ bs, mapExcept f as = Except.ok bs := by
  intro as
  induction as with
  | nil => intro _; exact ⟨[], rfl⟩
  | cons a tl ih =>
    intro h
    obtain ⟨b, hb⟩ := h a (List.mem_cons_self a tl)
    obtain ⟨bs, hbs⟩ := ih (fun x hx => h x (List.mem_cons_of_mem a hx))
    exact ⟨b :: bs, by unfold mapExcept; rw [hb, hbs]⟩

theorem mapExcept_mem {α β ε : Type} {f : α → Except ε β} :
    ∀ {as : List α} {bs : List β}, mapExcept f as = Except.ok bs →
      ∀ b ∈ bs, ∃ a ∈ as, f a = Except.ok b := by
  intro as
  induction as with
  | nil =>
    intro bs h b hb
    unfold mapExcept at h
    obtain rfl : ([] : List β) = bs := by simpa using h
    simp at hb
  | cons a tl ih =>
    intro bs h b hb
    unfold mapExcept at h
    cases hfa : f a with
    | error e => rw [hfa] at h; simp at h
    | ok b0 =>
      rw [hfa] at h
      cases htl : mapExcept f tl with
      | error e => rw [htl] at h; simp at h
      | ok bs0 =>
        rw [htl] at h
        obtain rfl : b0 :: bs0 = bs := by simpa using h
        rcases List.mem_cons.mp hb with rfl | hmem
        · exact ⟨a, List.mem_cons_self a tl, hfa⟩
        · obtain ⟨a', ha', hfa'⟩ := ih htl b hmem
          exact ⟨a', List.mem_cons_of_mem a ha', hfa'⟩

theorem parse_quiz_content_ok (s : Str) :
    ∃ items, parse_quiz_content s = Except.ok items := by
  unfold parse_quiz_content
  by_cases hnil : s = []
  · rw [if_pos hnil]; exact ⟨[], rfl⟩
  · rw [if_neg hnil]
    apply mapExcept_ok
    intro m _
    obtain ⟨it, hit, _, _⟩ :=
      mkItem_spec (buildMap (extract_answers s)) m.1 m.2
    exact ⟨it, hit⟩

theorem quizItems_eq (s : Str) :
    parse_quiz_content s = Except.ok (quizItems s) := by
  obtain ⟨items, h⟩ := parse_quiz_content_ok s
  unfold quizItems
  rw [h]

theorem quizItems_mem {s : Str} {it : QuizItem} (h : it ∈ quizItems s) :
    ∃ m ∈ scanAll s,
      mkItem (buildMap (extract_answers s)) m.1 m.2 = Except.ok it := by
  have hq := quizItems_eq s
  unfold parse_quiz_content at hq
  by_cases hnil : s = []
  · rw [if_pos hnil] at hq
    have hb : quizItems s = [] := by simpa using hq.symm
    rw [hb] at h
    simp at h
  · rw [if_neg hnil] at hq
    exact mapExcept_mem hq it h

theorem trimmedLine_spec {l : Str} (h : trimmedLine l = true) :
    l ≠ [] ∧ (∀ c, l.head? = some c → isSpace c = false) ∧
      (∀ c, l.getLast? = some c → isSpace c = false) := by
  unfold trimmedLine at h
  simp only [Bool.and_eq_true] at h
  obtain ⟨⟨h1, h2⟩, h3⟩ := h
  refine ⟨?_, ?_, ?_⟩
  · intro hnil; rw [hnil] at h1; simp at h1
  · intro c hc; rw [hc] at h2; simpa using h2
  · intro c hc; rw [hc] at h3; simpa using h3

theorem strip_of_ends {s : Str}
    (hh : ∀ c, s.head? = some c → isSpace c = false)
    (hl : ∀ c, s.getLast? = some c → isSpace c = false) : strip s = s := by
  unfold strip
  have h1 : s.dropWhile isSpace = s := by
    cases s with
    | nil => rfl
    | cons c t =>
      have hc := hh c rfl
      simp [List.dropWhile_cons, hc]
  rw [h1]
  have h2 : s.reverse.dropWhile isSpace = s.reverse := by
    cases hr : s.reverse with
    | nil => rfl
    | cons c t =>
      have hc : s.getLast? = some c := by
        rw [← List.head?_reverse, hr]; rfl
      have := hl c hc
      simp [List.dropWhile_cons, this]
  rw [h2, List.reverse_reverse]

theorem joinLines_ne_nil :
    ∀ ls : List Str, (∀ l ∈ ls, trimmedLine l = true) → ls ≠ [] →
      joinLines ls ≠ [] := by
  intro ls hc hne
  match ls with
  | [l] =>
    have := (trimmedLine_spec (hc l (by simp))).1
    simpa [joinLines] using this
  | l :: l2 :: t =>
    simp [joinLines]

theorem joinLines_head :
    ∀ ls : List Str, (∀ l ∈ ls, trimmedLine l = true) →
      ∀ c, (joinLines ls).head? = some c → isSpace c = false := by
  intro ls hc c hhead
  match ls with
  | [] => simp [joinLines] at hhead
  | [l] =>
    exact (trimmedLine_spec (hc l (by simp))).2.1 c (by simpa [joinLines] using hhead)
  | l :: l2 :: t =>
    have hl := trimmedLine_spec (hc l (by simp))
    have hne : l ≠ [] := hl.1
    rw [show joinLines (l :: l2 :: t) = l ++ '\n' :: joinLines (l2 :: t) from rfl,
      List.head?_append_of_ne_nil _ hne] at hhead
    exact hl.2.1 c hhead

theorem joinLines_getLast :
    ∀ ls : List Str, (∀ l ∈ ls, trimmedLine l = true) →
      ∀ c, (joinLines ls).getLast? = some c → isSpace c = false := by
  intro ls
  induction ls with
  | nil => intro _ c hlast; simp [joinLines] at hlast
  | cons l t ih =>
    intro hc c hlast
    match t with
    | [] =>
      exact (trimmedLine_spec (hc l (by simp))).2.2 c
        (by simpa [joinLines] using hlast)
    | l2 :: t2 =>
      have hct : ∀ x ∈ l2 :: t2, trimmedLine x = true :=
        fun x hx => hc x (List.mem_cons_of_mem l hx)
      have hjne : joinLines (l2 :: t2) ≠ [] :=
        joinLines_ne_nil (l2 :: t2) hct (by simp)
      rw [show joinLines (l :: l2 :: t2) = l ++ '\n' :: joinLines (l2 :: t2)
            from rfl,
        List.getLast?_append_of_ne_nil l (by simp),
        show ('\n' :: joinLines (l2 :: t2) : Str) = ['\n'] ++ joinLines (l2 :: t2)
            from rfl,
        List.getLast?_append_of_ne_nil _ hjne] at hlast
      exact ih hct c hlast

theorem strip_joinLines {ls : List Str}
    (hc : ∀ l ∈ ls, trimmedLine l = true) :
    strip (joinLines ls) = joinLines ls :=
  strip_of_ends (joinLines_head ls hc) (joinLines_getLast ls hc)

theorem drop_sub4 {α : Type} (lines : List α) (h4 : 4 ≤ lines.length) :
    ∃ a b c d, lines.drop (lines.length - 4) = [a, b, c, d] ∧
      lines[lines.length - 4]? = some a ∧
      lines[lines.length - 3]? = some b ∧
      lines[lines.length - 2]? = some c ∧
      lines[lines.length - 1]? = some d := by
  have h1 : lines.length - 4 < lines.length := by omega
  have h2 : lines.length - 3 < lines.length := by omega
  have h3 : lines.length - 2 < lines.length := by omega
  have h4' : lines.length - 1 < lines.length := by omega
  refine ⟨lines[lines.length - 4], lines[lines.length - 3],
    lines[lines.length - 2], lines[lines.length - 1], ?_,
    List.getElem?_eq_getElem h1, List.getElem?_eq_getElem h2,
    List.getElem?_eq_getElem h3, List.getElem?_eq_getElem h4'⟩
  rw [List.drop_eq_getElem_cons h1,
    show lines.length - 4 + 1 = lines.length - 3 by omega,
    List.drop_eq_getElem_cons h2,
    show lines.length - 3 + 1 = lines.length - 2 by omega,
    List.drop_eq_getElem_cons h3,
    show lines.length - 2 + 1 = lines.length - 1 by omega,
    List.drop_eq_getElem_cons h4',
    show lines.length - 1 + 1 = lines.length by omega,
    List.drop_length]

theorem optionLoop_spec (lines : List Str) :
    ∀ (idxs : List Nat) (r : Option Nat),
      optionLoop lines idxs = Except.ok r →
      r = none ∨ ∃ i ∈ idxs, r = some i := by
  intro idxs
  induction idxs with
  | nil =>
    intro r h
    left
    unfold optionLoop at h
    simpa using h.symm
  | cons i is ih =>
    intro r h
    unfold optionLoop at h
    cases hg : lines[i]? with
    | none => rw [hg] at h; simp at h
    | some l =>
      rw [hg] at h
      by_cases hopt : isOptionLine l
      · simp only [hopt, if_true] at h
        right
        exact ⟨i, List.mem_cons_self i is, by simpa using h.symm⟩
      · simp only [hopt, if_false, Bool.false_eq_true] at h
        rcases ih r h with hnone | ⟨j, hj, hr⟩
        · exact Or.inl hnone
        · exact Or.inr ⟨j, List.mem_cons_of_mem i hj, hr⟩

theorem segmentBody_split {lines : List Str}
    (hc : ∀ l ∈ lines, trimmedLine l = true) (h4 : 4 ≤ lines.length) :
    ∃ i, lines.length - 4 ≤ i ∧ i < lines.length ∧
      segmentBody lines = Except.ok (joinLines (lines.take i), lines.drop i) := by
  obtain ⟨o, ho⟩ := findOptionIndex_ok lines
  have hbound : ∀ i, o = some i →
      lines.length - 4 ≤ i ∧ i < lines.length := by
    intro i hoi
    subst hoi
    unfold findOptionIndex at ho
    rw [if_pos h4] at ho
    rcases optionLoop_spec lines _ _ ho with hnone | ⟨j, hj, hr⟩
    · simp at hnone
    · obtain rfl : j = i := by simpa using hr.symm
      simp only [List.mem_cons, List.not_mem_nil, or_false] at hj
      rcases hj with rfl | rfl | rfl | rfl <;> omega
  have hfinish : ∀ i, lines.length - 4 ≤ i → i < lines.length →
      segmentBody lines = Except.ok (strip (joinLines (lines.take i)),
        (lines.drop i).take 4) →
      ∃ i', lines.length - 4 ≤ i' ∧ i' < lines.length ∧
        segmentBody lines =
          Except.ok (joinLines (lines.take i'), lines.drop i') := by
    intro i hlo hhi hseg
    refine ⟨i, hlo, hhi, ?_⟩
    rw [hseg]
    have htake : (lines.drop i).take 4 = lines.drop i := by
      apply List.take_of_length_le
      rw [List.length_drop]
      omega
    have hstrip : strip (joinLines (lines.take i)) = joinLines (lines.take i) :=
      strip_joinLines (fun l hl => hc l (List.take_subset i lines hl))
    rw [htake, hstrip]
  cases o with
  | some i =>
    obtain ⟨hlo, hhi⟩ := hbound i rfl
    refine hfinish i hlo hhi ?_
    unfold segmentBody
    rw [ho]
    simp [fallbackIndex]
  | none =>
    refine hfinish (lines.length - 4) (le_refl _) (by omega) ?_
    unfold segmentBody
    rw [ho]
    simp [fallbackIndex, h4]

theorem takeBody_decomp :
    ∀ s : Str,
      s = (takeBody s).1 ++ (takeBody s).2 ∧
        atBoundary (takeBody s).2 = true ∧
        ∀ b₁ b₂, (takeBody s).1 = b₁ ++ b₂ → b₂ ≠ [] →
          atBoundary (b₂ ++ (takeBody s).2) = false := by
  intro s
  induction s with
  | nil =>
    refine ⟨rfl, by simp [takeBody, atBoundary], ?_⟩
    intro b₁ b₂ hb hne
    exact absurd (List.append_eq_nil.mp hb.symm).2 hne
  | cons c cs ih =>
    have heq : takeBody (c :: cs) =
        if atBoundary (c :: cs) = true then ([], c :: cs)
        else (c :: (takeBody cs).1, (takeBody cs).2) := rfl
    by_cases hb : atBoundary (c :: cs)
    · rw [heq, if_pos hb]
      refine ⟨rfl, hb, ?_⟩
      intro b₁ b₂ hb' hne
      exact absurd (List.append_eq_nil.mp hb'.symm).2 hne
    · rw [heq, if_neg hb]
      obtain ⟨ihdec, ihbound, ihmin⟩ := ih
      refine ⟨by rw [List.cons_append, ← ihdec], ihbound, ?_⟩
      intro b₁ b₂ hsplit hne
      match b₁ with
      | [] =>
        have hb2 : b₂ = c :: (takeBody cs).1 := by simpa using hsplit.symm
        rw [hb2, List.cons_append, ← ihdec]
        exact Bool.not_eq_true _ ▸ hb
      | c' :: b₁' =>
        have hc : c' = c ∧ (takeBody cs).1 = b₁' ++ b₂ := by
          have := hsplit
          rw [List.cons_append] at this
          exact ⟨(List.cons.injEq .. ▸ this).1.symm,
            (List.cons.injEq .. ▸ this).2⟩
        exact ihmin b₁' b₂ hc.2 hne

theorem matchQuestionNum_decomp {s : Str} {n : Nat} {t : Str}
    (h : matchQuestionNum s = some (n, t)) :
    ∃ ds, s = questionTok ++ ds ++ ' ' :: t ∧ ds ≠ [] ∧
      ds.all Char.isDigit = true ∧ digitsVal ds = n := by
  unfold matchQuestionNum at h
  by_cases hp : questionTok.isPrefixOf s
  · rw [if_pos hp] at h
    have hpre : questionTok ++ s.drop questionTok.length = s := by
      obtain ⟨u, hu⟩ := isPrefixOf_true_iff.mp hp
      rw [← hu, List.drop_left]
    have hd := takeDigits_decomp (s.drop questionTok.length)
    rcases htd : takeDigits (s.drop questionTok.length) with ⟨ds, r⟩
    rw [htd] at hd h
    rcases ds with _ | ⟨d0, ds'⟩ <;> rcases r with _ | ⟨c1, r'⟩
    · change none = some (n, t) at h
      exact Option.noConfusion h
    · change none = some (n, t) at h
      exact Option.noConfusion h
    · change none = some (n, t) at h
      exact Option.noConfusion h
    · change (if c1 = ' ' then some (digitsVal (d0 :: ds'), r') else none)
          = some (n, t) at h
      by_cases hsp : c1 = ' '
      · rw [if_pos hsp] at h
        simp only [Option.some.injEq, Prod.mk.injEq] at h
        obtain ⟨hn, ht⟩ := h
        subst hsp hn ht
        exact ⟨d0 :: ds', by rw [← hpre, hd.1]; simp, by simp, hd.2, rfl⟩
      · rw [if_neg hsp] at h
        exact Option.noConfusion h
  · rw [if_neg hp] at h
    exact Option.noConfusion h

theorem scanQuestionTok_decomp :
    ∀ {s : Str} {n : Nat} {t : Str}, scanQuestionTok s = some (n, t) →
      ∃ u ds, s = u ++ questionTok ++ ds ++ ' ' :: t ∧ ds ≠ [] ∧
        ds.all Char.isDigit = true ∧ digitsVal ds = n := by
  intro s
  induction s with
  | nil => intro n t h; simp [scanQuestionTok] at h
  | cons c cs ih =>
    intro n t h
    unfold scanQuestionTok at h
    cases hm : matchQuestionNum (c :: cs) with
    | some r =>
      rw [hm] at h
      obtain rfl : r = (n, t) := by simpa using h
      obtain ⟨ds, hs, hne, hdig, hval⟩ := matchQuestionNum_decomp hm
      exact ⟨[], ds, by simpa using hs, hne, hdig, hval⟩
    | none =>
      rw [hm] at h
      obtain ⟨u, ds, hs, hne, hdig, hval⟩ := ih h
      exact ⟨c :: u, ds, by simp [hs], hne, hdig, hval⟩

theorem tryMatchHere_decomp {s : Str} {n : Nat} {b r : Str}
    (h : tryMatchHere s = some (n, b, r)) :
    ∃ mid ds,
      s = startMarker ++ mid ++ questionTok ++ ds ++ ' ' :: (b ++ r) ∧
      ds ≠ [] ∧ ds.all Char.isDigit = true ∧ digitsVal ds = n ∧
      atBoundary r = true ∧
      ∀ b₁ b₂, b = b₁ ++ b₂ → b₂ ≠ [] → atBoundary (b₂ ++ r) = false := by
  unfold tryMatchHere at h
  by_cases hp : startMarker.isPrefixOf s
  · rw [if_pos hp] at h
    have hpre : startMarker ++ s.drop startMarker.length = s := by
      obtain ⟨u, hu⟩ := isPrefixOf_true_iff.mp hp
      rw [← hu, List.drop_left]
    cases hq : scanQuestionTok (s.drop startMarker.length) with
    | none => rw [hq] at h; simp at h
    | some p =>
      obtain ⟨n', afterNum⟩ := p
      rw [hq] at h
      simp only [Option.some.injEq, Prod.mk.injEq] at h
      obtain ⟨hn, hb, hr⟩ := h
      obtain ⟨u, ds, hdec, hne, hdig, hval⟩ := scanQuestionTok_decomp hq
      obtain ⟨hbody, hbound, hmin⟩ := takeBody_decomp afterNum
      rw [hb, hr] at hbody
      rw [hr] at hbound
      rw [hb, hr] at hmin
      subst hn
      refine ⟨u, ds, ?_, hne, hdig, hval, hbound, hmin⟩
      rw [← hpre, hdec, hbody]
      simp
  · rw [if_neg hp] at h
    simp at h

theorem findMatch_decomp :
    ∀ {s : Str} {n : Nat} {b r : Str}, findMatch s = some (n, b, r) →
      ∃ pre mid ds,
        s = pre ++ startMarker ++ mid ++ questionTok ++ ds ++ ' ' :: (b ++ r) ∧
        ds ≠ [] ∧ ds.all Char.isDigit = true ∧ digitsVal ds = n ∧
        atBoundary r = true ∧
        ∀ b₁ b₂, b = b₁ ++ b₂ → b₂ ≠ [] → atBoundary (b₂ ++ r) = false := by
  intro s
  induction s with
  | nil => intro n b r h; simp [findMatch] at h
  | cons c cs ih =>
    intro n b r h
    unfold findMatch at h
    cases hm : tryMatchHere (c :: cs) with
    | some m =>
      rw [hm] at h
      obtain rfl : m = (n, b, r) := by simpa using h
      obtain ⟨mid, ds, hdec, hne, hdig, hval, hbound, hmin⟩ :=
        tryMatchHere_decomp hm
      exact ⟨[], mid, ds, by simpa using hdec, hne, hdig, hval, hbound, hmin⟩
    | none =>
      rw [hm] at h
      obtain ⟨pre, mid, ds, hdec, hne, hdig, hval, hbound, hmin⟩ := ih h
      exact ⟨c :: pre, mid, ds, by simp [hdec], hne, hdig, hval, hbound, hmin⟩

theorem questionOcc_extend {front r : Str} {m : Nat × Str}
    (h : QuestionOcc r m) : QuestionOcc (front ++ r) m := by
  obtain ⟨pre, mid, ds, post, hdec, hne, hdig, hval, hbound, hmin⟩ := h
  exact ⟨front ++ pre, mid, ds, post, by rw [hdec]; simp, hne, hdig, hval,
    hbound, hmin⟩

theorem scanAllF_sound :
    ∀ (fuel : Nat) (s : Str) (m : Nat × Str),
      m ∈ scanAllF fuel s → QuestionOcc s m := by
  intro fuel
  induction fuel with
  | zero => intro s m hm; simp [scanAllF] at hm
  | succ f ih =>
    intro s m hm
    unfold scanAllF at hm
    cases hf : findMatch s with
    | none => rw [hf] at hm; simp at hm
    | some t =>
      obtain ⟨n, b, r⟩ := t
      rw [hf] at hm
      obtain ⟨pre, mid, ds, hdec, hne, hdig, hval, hbound, hmin⟩ :=
        findMatch_decomp hf
      rcases List.mem_cons.mp hm with rfl | htl
      · exact ⟨pre, mid, ds, r, hdec, hne, hdig, hval, hbound, hmin⟩
      · have hfront :
            s = (pre ++ startMarker ++ mid ++ questionTok ++ ds ++ ' ' :: b)
              ++ r := by
          rw [hdec]; simp
        rw [hfront]
        exact questionOcc_extend (ih r m htl)

theorem scanAll_sound {s : Str} {m : Nat × Str} (hm : m ∈ scanAll s) :
    QuestionOcc s m :=
  scanAllF_sound s.length s m hm

theorem mkItem_q_no {amap : Nat → Option Char} {n : Nat} {rawBody : Str}
    {it : QuizItem} (h : mkItem amap n rawBody = Except.ok it) :
    it.q_no = n ∧
      it.answer_letter =
        (match amap n with
         | some c => [c]
         | none => notFound) := by
  obtain ⟨it', h', hq, ha⟩ := mkItem_spec amap n rawBody
  rw [h'] at h
  obtain rfl : it' = it := by simpa using h
  exact ⟨hq, ha⟩

theorem findPat_eq_none {pat : Str} (hne : pat ≠ []) :
    ∀ s : Str, (∀ p < s.length, ¬ (pat <+: s.drop p)) →
      findPat pat s = none := by
  intro s
  induction s with
  | nil =>
    intro _
    unfold findPat
    rw [if_neg ?_]
    rw [isPrefixOf_true_iff]
    intro hp
    obtain ⟨t, ht⟩ := hp
    exact hne (List.append_eq_nil.mp ht).1
  | cons c cs ih =>
    intro h
    unfold findPat
    have h0 : ¬ (pat <+: (c :: cs)) := by
      have := h 0 (by simp)
      simpa using this
    rw [if_neg (by rw [isPrefixOf_true_iff]; exact h0)]
    have hrec : findPat pat cs = none := by
      apply ih
      intro p hp
      have := h (p + 1) (by simpa using Nat.succ_lt_succ hp)
      simpa using this
    rw [hrec]
    rfl

theorem splitOnMarker_of_none {s : Str}
    (h : findPat answerMarker s = none) : splitOnMarker s = [s] := by
  unfold splitOnMarker
  cases s.length with
  | zero => rfl
  | succ k =>
    unfold splitOnMarkerF
    rw [h]

/-!
Claim theorems.
-/

/-- Claim C1, counterexample: on a blob containing the "Answer key" marker
twice, the answer mapping is not parsed from everything after the first
marker (which would yield the entry (1, a)); the extraction returns no
entries at all, because the two-part unpacking of the three-part split
fails and is caught. -/
theorem claim1_counterexample :
    occCount exMultiKey = 2 ∧ extract_answers exMultiKey = [] ∧
      extract_answers_firstSplit exMultiKey = [(1, 'a')] :=
  ⟨by decide, by decide, by decide⟩

/-- Claim C1 (amended): for every blob in which the "Answer key" marker
occurs two or more times, the multiple occurrences are non-fatal, but
`extract_answers` does not split on the first occurrence: the split yields
three or more parts, the two-part unpacking raises the error that the
missing-marker handler catches, and the answer mapping is empty. -/
theorem claim1_amended (s : Str) (h : 2 ≤ occCount s) :
    extract_answers s = [] ∧
      ∃ items, parse_quiz_content s = Except.ok items := by
  have hlen : (splitOnMarker s).length = occCount s + 1 :=
    splitOnMarkerF_length s.length s
  have herr : answer_key_block s = Except.error () :=
    answer_key_block_eq_error (by omega)
  exact ⟨extract_answers_of_error herr, parse_quiz_content_ok s⟩

/-- Claim C1 (amended), witness at the two-marker blob. -/
theorem claim1_amended_witness :
    extract_answers exMultiKey = [] ∧
      ∃ items, parse_quiz_content exMultiKey = Except.ok items :=
  claim1_amended exMultiKey (by decide)

/-- Claim C2, counterexample: in `exNested` the literal start marker occurs
at two positions, each followed (with intervening text) by the token
"Question" and an integer, yet only one `QuizItem` is produced — the
left-to-right non-overlapping scan consumes the second marker inside the
first match, so items are not in bijection with such occurrences. -/
theorem claim2_counterexample :
    claimOccurrences exNested = 2 ∧ (quizItems exNested).length = 1 ∧
      (quizItems exNested).length ≠ claimOccurrences exNested :=
  ⟨by decide, by decide, by decide⟩

/-- Claim C2 (amended): every produced `QuizItem` arises from an occurrence
of the start marker followed (with arbitrary intervening text) by the
literal "Question ", a nonempty digit run whose value is the item's number,
and a space; the block body is everything after that space up to (but not
including) the first position at which the next start marker, the literal
"Answer key", or the end of input begins.  Because the scan is
non-overlapping and left-to-right, marker occurrences consumed inside an
earlier match yield no item of their own, so there is one item per scan
match, not one per occurrence. -/
theorem claim2_amended (s : Str) (it : QuizItem) (h : it ∈ quizItems s) :
    ∃ b, (it.q_no, b) ∈ scanAll s ∧ QuestionOcc s (it.q_no, b) := by
  obtain ⟨m, hm, hmk⟩ := quizItems_mem h
  obtain ⟨hq, _⟩ := mkItem_q_no hmk
  refine ⟨m.2, ?_, ?_⟩
  · rw [hq]; simpa using hm
  · rw [hq]; simpa using scanAll_sound hm

/-- Claim C2 (amended), witness at a one-question blob. -/
theorem claim2_amended_witness :
    ∃ b, (exItem7.q_no, b) ∈ scanAll exSmall ∧
      QuestionOcc exSmall (exItem7.q_no, b) :=
  claim2_amended exSmall exItem7 (by decide)

/-- Claim C3: for every blob that does not contain the literal marker
"Answer key", the extraction returns an empty mapping, parsing still
succeeds with a structured list (the missing marker is not fatal), and
every produced `QuizItem` carries the sentinel "N/A" as its answer
letter. -/
theorem claim3_missing_key (s : Str)
    (h : ∀ p < s.length, ¬ (answerMarker <+: s.drop p)) :
    extract_answers s = [] ∧
      (∃ items, parse_quiz_content s = Except.ok items) ∧
      ∀ it ∈ quizItems s, it.answer_letter = notFound := by
  have hf : findPat answerMarker s = none :=
    findPat_eq_none (by decide) s h
  have hsp : splitOnMarker s = [s] := splitOnMarker_of_none hf
  have herr : answer_key_block s = Except.error () := by
    unfold answer_key_block
    rw [hsp]
  have hea : extract_answers s = [] := extract_answers_of_error herr
  refine ⟨hea, parse_quiz_content_ok s, ?_⟩
  intro it hit
  obtain ⟨m, hm, hmk⟩ := quizItems_mem hit
  obtain ⟨_, ha⟩ := mkItem_q_no hmk
  rw [ha, hea]
  rfl

/-- Claim C3, witness at a blob with one question and no answer key. -/
theorem claim3_missing_key_witness :
    extract_answers exNoKey = [] ∧
      (∃ items, parse_quiz_content exNoKey = Except.ok items) ∧
      ∀ it ∈ quizItems exNoKey, it.answer_letter = notFound :=
  claim3_missing_key exNoKey (by decide)

/-- Claim C4: for every list of at least 4 non-empty trimmed lines whose
last 4 lines all match the option pattern, the segmentation selects exactly
those last 4 lines (in order) as the options and joins the lines above them
with newlines into the question text. -/
theorem claim4_window_all_match (lines : List Str)
    (hc : ∀ l ∈ lines, trimmedLine l = true)
    (h4 : 4 ≤ lines.length)
    (hall : ∀ l ∈ lines.drop (lines.length - 4), isOptionLine l = true) :
    segmentBody lines =
      Except.ok (joinLines (lines.take (lines.length - 4)),
        lines.drop (lines.length - 4)) := by
  obtain ⟨a, b, c, d, hdrop, ha, hb, hc2, hd2⟩ := drop_sub4 lines h4
  have hopt : isOptionLine a = true := hall a (by rw [hdrop]; simp)
  have hloop : optionLoop lines
      [lines.length - 4, lines.length - 3, lines.length - 2,
        lines.length - 1] = Except.ok (some (lines.length - 4)) := by
    unfold optionLoop
    rw [ha]
    simp [hopt]
  have hfind : findOptionIndex lines =
      Except.ok (some (lines.length - 4)) := by
    unfold findOptionIndex
    rw [if_pos h4, hloop]
  have htake : (lines.drop (lines.length - 4)).take 4 =
      lines.drop (lines.length - 4) :=
    List.take_of_length_le (by rw [List.length_drop]; omega)
  have hstrip := strip_joinLines
    (fun l hl => hc l (List.take_subset (lines.length - 4) lines hl))
  unfold segmentBody
  rw [hfind]
  simp [fallbackIndex, htake, hstrip]

/-- Claim C4, witness at five lines ending in a), b), c), d). -/
theorem claim4_window_all_match_witness :
    segmentBody exLines4 =
      Except.ok (joinLines (exLines4.take (exLines4.length - 4)),
        exLines4.drop (exLines4.length - 4)) :=
  claim4_window_all_match exLines4 (by decide) (by decide) (by decide)

/-- Claim C5: for every list of at least 4 non-empty trimmed lines in which
no line of the last-4 window matches the option pattern, the fallback makes
the literal last 4 lines the options regardless of their content, and the
remaining lines above become the question text. -/
theorem claim5_window_no_match (lines : List Str)
    (hc : ∀ l ∈ lines, trimmedLine l = true)
    (h4 : 4 ≤ lines.length)
    (hnone : ∀ l ∈ lines.drop (lines.length - 4), isOptionLine l = false) :
    segmentBody lines =
      Except.ok (joinLines (lines.take (lines.length - 4)),
        lines.drop (lines.length - 4)) := by
  obtain ⟨a, b, c, d, hdrop, ha, hb, hc2, hd2⟩ := drop_sub4 lines h4
  have hmem : ∀ x ∈ ([a, b, c, d] : List Str), isOptionLine x = false := by
    intro x hx
    apply hnone
    rw [hdrop]
    exact hx
  have sa := hmem a (by simp)
  have sb := hmem b (by simp)
  have sc := hmem c (by simp)
  have sd := hmem d (by simp)
  have hloop : optionLoop lines
      [lines.length - 4, lines.length - 3, lines.length - 2,
        lines.length - 1] = Except.ok none := by
    simp [optionLoop, ha, hb, hc2, hd2, sa, sb, sc, sd]
  have hfind : findOptionIndex lines = Except.ok none := by
    unfold findOptionIndex
    rw [if_pos h4, hloop]
  have htake : (lines.drop (lines.length - 4)).take 4 =
      lines.drop (lines.length - 4) :=
    List.take_of_length_le (by rw [List.length_drop]; omega)
  have hstrip := strip_joinLines
    (fun l hl => hc l (List.take_subset (lines.length - 4) lines hl))
  unfold segmentBody
  rw [hfind]
  simp [fallbackIndex, h4, htake, hstrip]

/-- Claim C5, witness at five lines whose last four are long phrases. -/
theorem claim5_window_no_match_witness :
    segmentBody exLines5 =
      Except.ok (joinLines (exLines5.take (exLines5.length - 4)),
        exLines5.drop (exLines5.length - 4)) :=
  claim5_window_no_match exLines5 (by decide) (by decide) (by decide)

/-- Claim C6, counterexample: in `exLines6` the first line matching the
option pattern sits at index 0, before the final 4 lines, yet the
segmentation does not split there (it would give options a), hello there,
world now, foo bar and drop the last two lines); it splits at index 2, the
fallback window, and drops nothing. -/
theorem claim6_counterexample :
    exLines6.findIdx isOptionLine = 0 ∧ 0 < exLines6.length - 4 ∧
      segmentBody exLines6 ≠
        Except.ok (joinLines (exLines6.take 0), (exLines6.drop 0).take 4) ∧
      segmentBody exLines6 =
        Except.ok (joinLines (exLines6.take 2), exLines6.drop 2) :=
  ⟨by decide, by decide, by decide, by decide⟩

/-- Claim C6 (amended): the option-marker scan only examines the last 4
lines, so the chosen split index always lies within them; the slice
`lines[split : split + 4]` therefore always reaches the end of the list
(`take 4` discards nothing) and no trailing line is ever dropped — the
lines before the split and the options together are exactly the input
lines. -/
theorem claim6_amended (lines : List Str)
    (hc : ∀ l ∈ lines, trimmedLine l = true) (h4 : 4 ≤ lines.length) :
    ∃ i, lines.length - 4 ≤ i ∧ i < lines.length ∧
      (lines.drop i).take 4 = lines.drop i ∧
      segmentBody lines = Except.ok (joinLines (lines.take i), lines.drop i) ∧
      lines.take i ++ lines.drop i = lines := by
  obtain ⟨i, hlo, hhi, hseg⟩ := segmentBody_split hc h4
  exact ⟨i, hlo, hhi,
    List.take_of_length_le (by rw [List.length_drop]; omega), hseg,
    List.take_append_drop i lines⟩

/-- Claim C6 (amended), witness at the six-line body with an early
option-pattern line. -/
theorem claim6_amended_witness :
    ∃ i, exLines6.length - 4 ≤ i ∧ i < exLines6.length ∧
      (exLines6.drop i).take 4 = exLines6.drop i ∧
      segmentBody exLines6 =
        Except.ok (joinLines (exLines6.take i), exLines6.drop i) ∧
      exLines6.take i ++ exLines6.drop i = exLines6 :=
  claim6_amended exLines6 (by decide) (by decide)

/-- Claim C7: every entry recorded by the answer-key scan corresponds to a
substring of the scanned text matching digits, dot, letter a-d, with the
entry's number the value of the digit run and the entry's letter that
letter; and the malformed text "12.e" yields no entry at all. -/
theorem claim7_entries_sound :
    (∀ (s : Str) (e : Nat × Char), e ∈ scanAnswers s → AnswerOcc s e) ∧
      scanAnswers exMalformed = [] :=
  ⟨fun _ _ he => scanAnswers_sound he, by decide⟩

/-- Claim C7, witness: the single entry scanned from "Answer: 12.b" is
covered by the soundness statement. -/
theorem claim7_entries_sound_witness : AnswerOcc exOneKey (12, 'b') :=
  claim7_entries_sound.1 exOneKey (12, 'b') (by decide)

/-- Claim C8: the answer dictionary resolves every number to the letter of
the last (rightmost) entry with that number — later entries overwrite
earlier ones — and in particular for the key text "1.a ... 1.b" the letter
resolved for number 1 is b. -/
theorem claim8_last_wins :
    (∀ (s : Str) (n : Nat),
      buildMap (scanAnswers s) n = lookLast (scanAnswers s) n) ∧
      buildMap (scanAnswers exKeyDup) 1 = some 'b' := by
  constructor
  · intro s n
    unfold buildMap
    rw [buildMap_eq_lookLast]
    cases h : lookLast (scanAnswers s) n <;> simp [h]
  · decide

/-- Claim C9: for every input string, the parser raises no exception — it
always returns a structured (possibly empty) list.  The one fallible
operation of the source, the two-part unpacking of the split (a possible
`ValueError`), is caught, and the option-window indexing never goes out of
bounds. -/
theorem claim9_total (s : Str) :
    ∃ items, parse_quiz_content s = Except.ok items :=
  parse_quiz_content_ok s

/-- Claim C10: for every list of at least 4 non-empty trimmed lines, the
chosen split index lies within the last 4 lines, the options are the whole
suffix from the split index (between 1 and 4 lines), and question text and
options partition the input lines — no line is discarded. -/
theorem claim10_partition (lines : List Str)
    (hc : ∀ l ∈ lines, trimmedLine l = true) (h4 : 4 ≤ lines.length) :
    ∃ i, lines.length - 4 ≤ i ∧ i < lines.length ∧
      segmentBody lines = Except.ok (joinLines (lines.take i), lines.drop i) ∧
      1 ≤ (lines.drop i).length ∧ (lines.drop i).length ≤ 4 ∧
      lines.take i ++ lines.drop i = lines := by
  obtain ⟨i, hlo, hhi, hseg⟩ := segmentBody_split hc h4
  refine ⟨i, hlo, hhi, hseg, ?_, ?_, List.take_append_drop i lines⟩
  · rw [List.length_drop]; omega
  · rw [List.length_drop]; omega

/-- Claim C10, witness at the five-line body of the end-to-end example. -/
theorem claim10_partition_witness :
    ∃ i, exLinesSky.length - 4 ≤ i ∧ i < exLinesSky.length ∧
      segmentBody exLinesSky =
        Except.ok (joinLines (exLinesSky.take i), exLinesSky.drop i) ∧
      1 ≤ (exLinesSky.drop i).length ∧ (exLinesSky.drop i).length ≤ 4 ∧
      exLinesSky.take i ++ exLinesSky.drop i = exLinesSky :=
  claim10_partition exLinesSky (by decide) (by decide)

end DocxProc
